import Mathlib

/-
Shallow embedding of the go-seeder registry (SeederManager) and its
command-line dispatcher (CLI).

Modelling decisions:
- A Go error value is the inductive type GoErr; the formatted text of an
  error (the Error() string, with %w chaining) is GoErr.message.
- A seeder action (a Go func() error) is modelled as an SeedAction value: an
  identity tag plus the error the action returns when invoked (none on
  success).  Executing operations return the ordered trace of the actions
  they invoked together with the returned error, making invocation order
  and invocation counts observable.
- The Go map[string]func() error is modelled as an association list with
  exact string-equality lookup (mapLookup); insertion appends the new
  binding, which under the unique-key discipline of RegisterSeeder has the
  same lookup semantics as a Go map store.
- Mutating methods are state passing: they return the new manager state
  paired with the returned error; on a failed registration the returned
  state is the unchanged input state.
- log output of Usage and Run is modelled as the list of formatted lines;
  os.Exit(1) is the RunOutcome.exitCode outcome.
-/

set_option maxHeartbeats 1000000

namespace GoSeeder

/-- Go error values produced by the package, plus caller-supplied action
errors.  Wrapping constructors keep the cause, mirroring %w. -/
inductive GoErr : Type where
  | emptyName : GoErr
  | duplicate : String → GoErr
  | notFound : String → GoErr
  | execFailed : String → GoErr → GoErr
  | registerFailed : String → GoErr → GoErr
  | userError : String → GoErr
deriving DecidableEq

/-- The formatted message of an error, following the fmt.Errorf format
strings in the source; %w includes the message of the wrapped cause. -/
def GoErr.message : GoErr → String
  | GoErr.emptyName => "seeder name cannot be empty"
  | GoErr.duplicate n => "seeder with name \x27" ++ n ++ "\x27 already exists"
  | GoErr.notFound n => "seeder with name \x27" ++ n ++ "\x27 not found"
  | GoErr.execFailed n c => "seeder \x27" ++ n ++ "\x27 failed: " ++ c.message
  | GoErr.registerFailed n c =>
      "failed to register seeder \x27" ++ n ++ "\x27: " ++ c.message
  | GoErr.userError m => m

/-- A seeder action: an identity tag (distinguishing distinct Go function
values) and the error it returns when invoked (none on success). -/
structure SeedAction where
  id : Nat
  result : Option GoErr
deriving DecidableEq

/-- SeederItem from the source: a name paired with an action. -/
structure SeederItem where
  Name : String
  Function : SeedAction
deriving DecidableEq

/-- SeederManager state: the ordered slice of registered seeders and the
name-to-action map (as an association list).  The db handle is opaque and
never read by the operations the claims concern, so it is omitted. -/
structure SeederManager where
  seeders : List SeederItem
  seederMap : List (String × SeedAction)
deriving DecidableEq

/-- Exact string-equality association-list lookup, modelling Go map
indexing. -/
def mapLookup (name : String) : List (String × SeedAction) → Option SeedAction
  | [] => none
  | (k, v) :: rest => if k = name then some v else mapLookup name rest

/-- NewSeederManager: the empty registry. -/
def NewSeederManager : SeederManager := ⟨[], []⟩

/-- RegisterSeeder: reject the empty name, reject a duplicate name,
otherwise append to both the slice and the map. -/
def SeederManager.RegisterSeeder (sm : SeederManager) (name : String)
    (function : SeedAction) : SeederManager × Option GoErr :=
  if name = "" then
    (sm, some GoErr.emptyName)
  else if (mapLookup name sm.seederMap).isSome then
    (sm, some (GoErr.duplicate name))
  else
    ({ seeders := sm.seeders ++ [⟨name, function⟩],
       seederMap := sm.seederMap ++ [(name, function)] }, none)

/-- RegisterSeeders: register each item in order via RegisterSeeder, stop
at the first failure and wrap its error with the failing name. -/
def SeederManager.RegisterSeeders (sm : SeederManager) :
    List SeederItem → SeederManager × Option GoErr
  | [] => (sm, none)
  | item :: rest =>
    match sm.RegisterSeeder item.Name item.Function with
    | (sm₁, none) => sm₁.RegisterSeeders rest
    | (sm₁, some e) => (sm₁, some (GoErr.registerFailed item.Name e))

/-- GetRegisteredSeeders: the names in the slice, in registration order. -/
def SeederManager.GetRegisteredSeeders (sm : SeederManager) : List String :=
  sm.seeders.map SeederItem.Name

/-- RunSeederByName: look the name up in the map; if absent return the
not-found error and invoke nothing; otherwise invoke the action once and
wrap a failure with the name. -/
def SeederManager.RunSeederByName (sm : SeederManager) (name : String) :
    List SeedAction × Option GoErr :=
  match mapLookup name sm.seederMap with
  | some f =>
    match f.result with
    | some e => ([f], some (GoErr.execFailed name e))
    | none => ([f], none)
  | none => ([], some (GoErr.notFound name))

/-- RunSeedersInOrder: run each name via RunSeederByName, stopping at the
first error and returning it unchanged. -/
def SeederManager.RunSeedersInOrder (sm : SeederManager) :
    List String → List SeedAction × Option GoErr
  | [] => ([], none)
  | n :: rest =>
    match sm.RunSeederByName n with
    | (tr, some e) => (tr, some e)
    | (tr, none) =>
      let r := sm.RunSeedersInOrder rest
      (tr ++ r.1, r.2)

/-- Loop body of RunAllSeeders: iterate the slice directly, invoking each
item.Function, stopping at the first failure wrapped with the name. -/
def RunAllSeedersAux : List SeederItem → List SeedAction × Option GoErr
  | [] => ([], none)
  | item :: rest =>
    match item.Function.result with
    | some e => ([item.Function], some (GoErr.execFailed item.Name e))
    | none =>
      let r := RunAllSeedersAux rest
      (item.Function :: r.1, r.2)

/-- RunAllSeeders: run every registered seeder in slice order. -/
def SeederManager.RunAllSeeders (sm : SeederManager) :
    List SeedAction × Option GoErr :=
  RunAllSeedersAux sm.seeders

/-- IsSeederRegistered: map membership. -/
def SeederManager.IsSeederRegistered (sm : SeederManager) (name : String) :
    Bool :=
  (mapLookup name sm.seederMap).isSome

/-- CLI state: a manager reference and the display app name. -/
structure CLI where
  manager : SeederManager
  appName : String

/-- NewCLI: default app name "seeder". -/
def NewCLI (manager : SeederManager) : CLI := ⟨manager, "seeder"⟩

/-- NewCLIWithAppName. -/
def NewCLIWithAppName (manager : SeederManager) (appName : String) : CLI :=
  ⟨manager, appName⟩

/-- strings.Repeat. -/
def strRepeat (s : String) (n : Nat) : String :=
  String.join (List.replicate n s)

/-- The banner and invocation-forms lines Usage always prints first. -/
def usageHeader (appName : String) : List String :=
  ["=" ++ strRepeat "=" 60,
   "DATABASE SEEDER - " ++ appName.toUpper,
   "=" ++ strRepeat "=" 60,
   "",
   "Usage:",
   "  " ++ appName ++ " -type=all     # Run all seeders",
   "  " ++ appName ++ " -type=<name>  # Run specific seeder",
   "  " ++ appName ++ "               # Show this help",
   ""]

/-- The numbered per-seeder lines of Usage: for the i-th name (0-based
loop index) print the 1-based number, the invocation command and a blank
line. -/
def usageSeederLines (appName : String) (i : Nat) : List String → List String
  | [] => []
  | n :: rest =>
    ("  " ++ toString (i + 1) ++ ". " ++ n)
    :: ("     Command: " ++ appName ++ " -type=" ++ n)
    :: ""
    :: usageSeederLines appName (i + 1) rest

/-- CLI.Usage: the full usage text as a list of log lines. -/
def CLI.Usage (cli : CLI) : List String :=
  usageHeader cli.appName ++
  (if cli.manager.GetRegisteredSeeders = [] then
    ["No seeders registered yet."]
  else
    ["Available seeders (in execution order):",
     "-" ++ strRepeat "-" 40]
    ++ usageSeederLines cli.appName 0 cli.manager.GetRegisteredSeeders
    ++ ["Quick commands:",
        "  " ++ cli.appName ++ " -type=all     # Run all seeders",
        "=" ++ strRepeat "=" 60])

/-- How CLI.Run terminates: a normal return of nil or of an error, or a
process exit with the given status (os.Exit). -/
inductive RunOutcome : Type where
  | ok : RunOutcome
  | fail : GoErr → RunOutcome
  | exitCode : Nat → RunOutcome
deriving DecidableEq

/-- Convert the error returned by a manager operation into the outcome of
the CLI.Run call that returned it. -/
def outcomeOfResult : Option GoErr → RunOutcome
  | none => RunOutcome.ok
  | some e => RunOutcome.fail e

/-- CLI.Run on the value of the -type flag (the empty string models both
an absent flag, its default, and an explicitly empty one).  Returns the
log lines Run itself prints, the trace of invoked actions, and the
outcome. -/
def CLI.Run (cli : CLI) (seedType : String) :
    List String × List SeedAction × RunOutcome :=
  if seedType = "" then
    (cli.Usage, [], RunOutcome.ok)
  else if seedType = "all" then
    let r := cli.manager.RunAllSeeders
    (["Starting seeder with type: " ++ seedType], r.1, outcomeOfResult r.2)
  else if cli.manager.IsSeederRegistered seedType then
    let r := cli.manager.RunSeederByName seedType
    (["Starting seeder with type: " ++ seedType], r.1, outcomeOfResult r.2)
  else
    (["Starting seeder with type: " ++ seedType,
      "Unknown seeder type: " ++ seedType,
      "Available seeders: ["
        ++ String.intercalate " " cli.manager.GetRegisteredSeeders ++ "]"]
     ++ cli.Usage, [], RunOutcome.exitCode 1)

/-- Registry states reachable from the empty registry by any sequence of
RegisterSeeder and RegisterSeeders calls (both failed and successful calls
are allowed; a failed call leaves the state unchanged). -/
inductive Reachable : SeederManager → Prop where
  | base : Reachable NewSeederManager
  | step (sm : SeederManager) (name : String) (f : SeedAction) :
      Reachable sm → Reachable (sm.RegisterSeeder name f).1
  | batch (sm : SeederManager) (items : List SeederItem) :
      Reachable sm → Reachable (sm.RegisterSeeders items).1

/-- The registry invariant: map keys and slice names agree as sets, slice
names are pairwise distinct and nonempty, and the map binds each slice
name to exactly the action stored in the slice. -/
def Wf (sm : SeederManager) : Prop :=
  (∀ n, (mapLookup n sm.seederMap).isSome = true ↔
      n ∈ sm.seeders.map SeederItem.Name) ∧
  (sm.seeders.map SeederItem.Name).Nodup ∧
  (∀ it ∈ sm.seeders,
      it.Name ≠ "" ∧ mapLookup it.Name sm.seederMap = some it.Function)

/-- A sample succeeding action. -/
def actOk : SeedAction := ⟨1, none⟩

/-- A second sample succeeding action. -/
def actOk2 : SeedAction := ⟨2, none⟩

/-- A sample failing action returning the error boom. -/
def actBoom : SeedAction := ⟨3, some (GoErr.userError "boom")⟩

/-- A registry with the single seeder users. -/
def smUsers : SeederManager := (NewSeederManager.RegisterSeeder "users" actOk).1

/-- A registry with seeders users and departments, in that order. -/
def smDemo : SeederManager :=
  (smUsers.RegisterSeeder "departments" actOk2).1

/-- A registry with seeders users and x, where x fails with boom. -/
def smBoom : SeederManager := (smUsers.RegisterSeeder "x" actBoom).1

/-- A registry where a seeder is registered under the literal name all. -/
def smAll : SeederManager := (smUsers.RegisterSeeder "all" actOk2).1

theorem mapLookup_append_some {n : String} {l₁ l₂ : List (String × SeedAction)}
    {v : SeedAction} (h : mapLookup n l₁ = some v) :
    mapLookup n (l₁ ++ l₂) = some v := by
  induction l₁ with
  | nil => simp [mapLookup] at h
  | cons p rest ih =>
    rcases p with ⟨k, w⟩
    by_cases hk : k = n
    · simp [mapLookup, hk] at h ⊢
      exact h
    · simp [mapLookup, hk] at h ⊢
      exact ih h

theorem mapLookup_append_none {n : String} {l₁ l₂ : List (String × SeedAction)}
    (h : mapLookup n l₁ = none) :
    mapLookup n (l₁ ++ l₂) = mapLookup n l₂ := by
  induction l₁ with
  | nil => simp [mapLookup]
  | cons p rest ih =>
    rcases p with ⟨k, w⟩
    by_cases hk : k = n
    · simp [mapLookup, hk] at h
    · simp [mapLookup, hk] at h ⊢
      exact ih h

theorem regSeeder_fail_state {sm : SeederManager} {n : String} {f : SeedAction}
    {e : GoErr} (h : (sm.RegisterSeeder n f).2 = some e) :
    (sm.RegisterSeeder n f).1 = sm := by
  by_cases h0 : n = ""
  · simp [SeederManager.RegisterSeeder, h0]
  · by_cases h1 : (mapLookup n sm.seederMap).isSome
    · simp [SeederManager.RegisterSeeder, h0, h1]
    · simp [SeederManager.RegisterSeeder, h0, h1] at h

theorem regSeeder_ok_eq {sm : SeederManager} {n : String} (f : SeedAction)
    (h0 : ¬ n = "") (h1 : mapLookup n sm.seederMap = none) :
    sm.RegisterSeeder n f =
      ({ seeders := sm.seeders ++ [⟨n, f⟩],
         seederMap := sm.seederMap ++ [(n, f)] }, none) := by
  simp [SeederManager.RegisterSeeder, h0, h1]

theorem regSeeder_dup_eq {sm : SeederManager} {n : String} (f : SeedAction)
    (h0 : ¬ n = "") (h1 : (mapLookup n sm.seederMap).isSome = true) :
    sm.RegisterSeeder n f = (sm, some (GoErr.duplicate n)) := by
  simp [SeederManager.RegisterSeeder, h0, h1]

theorem regSeeder_mono {sm : SeederManager} {m : String} (n : String)
    (f : SeedAction) (h : sm.IsSeederRegistered m = true) :
    ((sm.RegisterSeeder n f).1).IsSeederRegistered m = true := by
  by_cases h0 : n = ""
  · simpa [SeederManager.RegisterSeeder, h0] using h
  · by_cases h1 : (mapLookup n sm.seederMap).isSome
    · simpa [SeederManager.RegisterSeeder, h0, h1] using h
    · rcases Option.isSome_iff_exists.mp h with ⟨v, hv⟩
      simp [SeederManager.RegisterSeeder, h0, h1, SeederManager.IsSeederRegistered,
        mapLookup_append_some hv]

theorem regSeeder_self {sm : SeederManager} {n : String} {f : SeedAction}
    (h : (sm.RegisterSeeder n f).2 = none) :
    ((sm.RegisterSeeder n f).1).IsSeederRegistered n = true := by
  by_cases h0 : n = ""
  · simp [SeederManager.RegisterSeeder, h0] at h
  · by_cases h1 : (mapLookup n sm.seederMap).isSome
    · simp [SeederManager.RegisterSeeder, h0, h1] at h
    · have hn : mapLookup n sm.seederMap = none :=
        Option.not_isSome_iff_eq_none.mp h1
      simp [SeederManager.RegisterSeeder, h0, h1, SeederManager.IsSeederRegistered,
        mapLookup_append_none hn, mapLookup]

theorem regSeeders_mono (items : List SeederItem) {sm : SeederManager}
    {m : String} (h : sm.IsSeederRegistered m = true) :
    ((sm.RegisterSeeders items).1).IsSeederRegistered m = true := by
  induction items generalizing sm with
  | nil => simpa [SeederManager.RegisterSeeders] using h
  | cons item rest ih =>
    rcases hreg : sm.RegisterSeeder item.Name item.Function with ⟨sm₁, o⟩
    have hmono := regSeeder_mono item.Name item.Function h
    rw [hreg] at hmono
    cases o with
    | none =>
      simp only [SeederManager.RegisterSeeders, hreg]
      exact ih hmono
    | some e =>
      simpa [SeederManager.RegisterSeeders, hreg] using hmono

theorem regSeeders_registered {items : List SeederItem} {sm sm₁ : SeederManager}
    (h : sm.RegisterSeeders items = (sm₁, none)) :
    ∀ it ∈ items, sm₁.IsSeederRegistered it.Name = true := by
  induction items generalizing sm with
  | nil => simp
  | cons item rest ih =>
    rcases hreg : sm.RegisterSeeder item.Name item.Function with ⟨s, o⟩
    cases o with
    | some e =>
      simp [SeederManager.RegisterSeeders, hreg] at h
    | none =>
      simp only [SeederManager.RegisterSeeders, hreg] at h
      intro it hit
      rcases List.mem_cons.mp hit with hhead | htail
      · subst hhead
        have h2 : (sm.RegisterSeeder it.Name it.Function).2 = none := by
          rw [hreg]
        have hself := regSeeder_self h2
        rw [hreg] at hself
        have hmono := regSeeders_mono rest hself
        rw [h] at hmono
        exact hmono
      · exact ih h it htail

theorem regSeeders_append_ok {l₁ l₂ : List SeederItem} {sm s : SeederManager}
    (h : sm.RegisterSeeders l₁ = (s, none)) :
    sm.RegisterSeeders (l₁ ++ l₂) = s.RegisterSeeders l₂ := by
  induction l₁ generalizing sm with
  | nil =>
    simp [SeederManager.RegisterSeeders] at h
    simp [h]
  | cons item rest ih =>
    rcases hreg : sm.RegisterSeeder item.Name item.Function with ⟨s₀, o⟩
    cases o with
    | some e =>
      simp [SeederManager.RegisterSeeders, hreg] at h
    | none =>
      simp only [SeederManager.RegisterSeeders, hreg] at h
      simp only [List.cons_append, SeederManager.RegisterSeeders, hreg]
      exact ih h

theorem wf_new : Wf NewSeederManager := by
  refine ⟨?_, ?_, ?_⟩ <;> simp [NewSeederManager, mapLookup, Wf]

theorem wf_register {sm : SeederManager} (n : String) (f : SeedAction)
    (h : Wf sm) : Wf (sm.RegisterSeeder n f).1 := by
  by_cases h0 : n = ""
  · simpa [SeederManager.RegisterSeeder, h0] using h
  · by_cases h1 : (mapLookup n sm.seederMap).isSome
    · simpa [SeederManager.RegisterSeeder, h0, h1] using h
    · have hn : mapLookup n sm.seederMap = none :=
        Option.not_isSome_iff_eq_none.mp h1
      rcases h with ⟨hkeys, hnodup, hitems⟩
      have hnotmem : n ∉ sm.seeders.map SeederItem.Name := by
        intro hm
        have := (hkeys n).mpr hm
        rw [hn] at this
        simp at this
      rw [regSeeder_ok_eq f h0 hn]
      refine ⟨?_, ?_, ?_⟩
      · intro m
        by_cases hm : mapLookup m sm.seederMap = none
        · have heq := @mapLookup_append_none m sm.seederMap [(n, f)] hm
          by_cases hnm : n = m
          · subst hnm
            simp [heq, mapLookup, hnotmem]
          · have : m ∉ sm.seeders.map SeederItem.Name := by
              intro hmem
              have := (hkeys m).mpr hmem
              rw [hm] at this
              simp at this
            simp [heq, mapLookup, hnm, this, Ne.symm hnm]
        · rcases Option.ne_none_iff_exists.mp hm with ⟨v, hv⟩
          have heq := @mapLookup_append_some m sm.seederMap [(n, f)] v hv.symm
          have hmem := (hkeys m).mp (by simp [hv.symm])
          simp [heq, hmem]
      · simp only [List.map_append, List.map_cons, List.map_nil]
        rw [List.nodup_append]
        refine ⟨hnodup, List.nodup_singleton n, ?_⟩
        intro a ha hb
        simp at hb
        subst hb
        exact hnotmem ha
      · intro it hit
        rcases List.mem_append.mp hit with hold | hnew
        · rcases hitems it hold with ⟨hne, hlk⟩
          exact ⟨hne, mapLookup_append_some hlk⟩
        · simp at hnew
          subst hnew
          simp [h0, mapLookup_append_none hn, mapLookup]

theorem wf_registerSeeders {items : List SeederItem} {sm : SeederManager}
    (h : Wf sm) : Wf (sm.RegisterSeeders items).1 := by
  induction items generalizing sm with
  | nil => simpa [SeederManager.RegisterSeeders] using h
  | cons item rest ih =>
    rcases hreg : sm.RegisterSeeder item.Name item.Function with ⟨s, o⟩
    have hwf := wf_register item.Name item.Function h
    rw [hreg] at hwf
    cases o with
    | none =>
      simp only [SeederManager.RegisterSeeders, hreg]
      exact ih hwf
    | some e =>
      simpa [SeederManager.RegisterSeeders, hreg] using hwf

theorem reachable_wf {sm : SeederManager} (h : Reachable sm) : Wf sm := by
  induction h with
  | base => exact wf_new
  | step sm n f _ ih => exact wf_register n f ih
  | batch sm items _ ih => exact wf_registerSeeders ih

theorem regSeeder_seeders_extend (sm : SeederManager) (name : String)
    (f : SeedAction) :
    ∃ t, ((sm.RegisterSeeder name f).1).seeders = sm.seeders ++ t := by
  by_cases h0 : name = ""
  · exact ⟨[], by simp [SeederManager.RegisterSeeder, h0]⟩
  · by_cases h1 : (mapLookup name sm.seederMap).isSome
    · exact ⟨[], by simp [SeederManager.RegisterSeeder, h0, h1]⟩
    · exact ⟨[⟨name, f⟩], by simp [SeederManager.RegisterSeeder, h0, h1]⟩

theorem regSeeders_seeders_extend (items : List SeederItem) :
    ∀ sm : SeederManager,
      ∃ t, ((sm.RegisterSeeders items).1).seeders = sm.seeders ++ t := by
  induction items with
  | nil =>
    intro sm
    exact ⟨[], by simp [SeederManager.RegisterSeeders]⟩
  | cons item rest ih =>
    intro sm
    rcases hreg : sm.RegisterSeeder item.Name item.Function with ⟨s, o⟩
    have hext := regSeeder_seeders_extend sm item.Name item.Function
    rw [hreg] at hext
    rcases hext with ⟨t₁, ht₁⟩
    cases o with
    | none =>
      rcases ih s with ⟨t₂, ht₂⟩
      refine ⟨t₁ ++ t₂, ?_⟩
      simp only [SeederManager.RegisterSeeders, hreg]
      rw [ht₂, ht₁, List.append_assoc]
    | some e =>
      refine ⟨t₁, ?_⟩
      simp only [SeederManager.RegisterSeeders, hreg]
      exact ht₁

theorem regSeeders_ok_foldl (items : List SeederItem) :
    ∀ sm : SeederManager, (sm.RegisterSeeders items).2 = none →
      sm.RegisterSeeders items =
        (items.foldl (fun s it => (s.RegisterSeeder it.Name it.Function).1) sm,
         none) := by
  induction items with
  | nil =>
    intro sm _
    simp [SeederManager.RegisterSeeders]
  | cons item rest ih =>
    intro sm h
    rcases hreg : sm.RegisterSeeder item.Name item.Function with ⟨s, o⟩
    cases o with
    | some e => simp [SeederManager.RegisterSeeders, hreg] at h
    | none =>
      simp only [SeederManager.RegisterSeeders, hreg] at h ⊢
      rw [List.foldl_cons]
      have hs : (sm.RegisterSeeder item.Name item.Function).1 = s := by rw [hreg]
      rw [hs]
      exact ih s h

theorem runAllAux_eq_inOrder {sm : SeederManager} (l : List SeederItem)
    (h : ∀ it ∈ l, mapLookup it.Name sm.seederMap = some it.Function) :
    RunAllSeedersAux l = sm.RunSeedersInOrder (l.map SeederItem.Name) := by
  induction l with
  | nil => simp [RunAllSeedersAux, SeederManager.RunSeedersInOrder]
  | cons item rest ih =>
    have hhead := h item (List.mem_cons_self item rest)
    have htail : ∀ it ∈ rest, mapLookup it.Name sm.seederMap = some it.Function :=
      fun it hit => h it (List.mem_cons_of_mem item hit)
    rcases hres : item.Function.result with _ | e
    · simp only [RunAllSeedersAux, hres, List.map_cons,
        SeederManager.RunSeedersInOrder, SeederManager.RunSeederByName, hhead,
        ih htail]
      simp
    · simp [RunAllSeedersAux, hres, List.map_cons,
        SeederManager.RunSeedersInOrder, SeederManager.RunSeederByName, hhead]

theorem runInOrder_all_ok {sm : SeederManager} (names : List String)
    (h : ∀ n ∈ names, (sm.RunSeederByName n).2 = none) :
    sm.RunSeedersInOrder names =
      ((names.map fun n => (sm.RunSeederByName n).1).flatten, none) := by
  induction names with
  | nil => simp [SeederManager.RunSeedersInOrder]
  | cons n rest ih =>
    have hh := h n (List.mem_cons_self n rest)
    have ht : ∀ m ∈ rest, (sm.RunSeederByName m).2 = none :=
      fun m hm => h m (List.mem_cons_of_mem n hm)
    rcases hr : sm.RunSeederByName n with ⟨tr, o⟩
    rw [hr] at hh
    simp only at hh
    subst hh
    simp [SeederManager.RunSeedersInOrder, hr, ih ht]

theorem runInOrder_stops {sm : SeederManager} (pre : List String) :
    ∀ (n : String) (rest : List String) (e : GoErr),
      (∀ m ∈ pre, (sm.RunSeederByName m).2 = none) →
      (sm.RunSeederByName n).2 = some e →
      sm.RunSeedersInOrder (pre ++ n :: rest) =
        ((pre.map fun m => (sm.RunSeederByName m).1).flatten
           ++ (sm.RunSeederByName n).1, some e) := by
  induction pre with
  | nil =>
    intro n rest e _ hn
    rcases hr : sm.RunSeederByName n with ⟨tr, o⟩
    rw [hr] at hn
    simp only at hn
    subst hn
    simp [SeederManager.RunSeedersInOrder, hr]
  | cons m tl ih =>
    intro n rest e hpre hn
    have hm := hpre m (List.mem_cons_self m tl)
    rcases hr : sm.RunSeederByName m with ⟨tr, o⟩
    rw [hr] at hm
    simp only at hm
    subst hm
    have ht : ∀ x ∈ tl, (sm.RunSeederByName x).2 = none :=
      fun x hx => hpre x (List.mem_cons_of_mem m hx)
    have ihh := ih n rest e ht hn
    simp [SeederManager.RunSeedersInOrder, hr, ihh, List.append_assoc]

theorem usageSeederLines_length (appName : String) (names : List String) :
    ∀ i : Nat, (usageSeederLines appName i names).length = 3 * names.length := by
  induction names with
  | nil =>
    intro i
    simp [usageSeederLines]
  | cons n rest ih =>
    intro i
    simp only [usageSeederLines, List.length_cons, ih (i + 1)]
    ring

theorem usageSeederLines_get (appName : String) (names : List String) :
    ∀ (i k : Nat) (n : String), names.get? k = some n →
      (usageSeederLines appName i names).get? (3 * k) =
        some ("  " ++ toString (i + k + 1) ++ ". " ++ n) ∧
      (usageSeederLines appName i names).get? (3 * k + 1) =
        some ("     Command: " ++ appName ++ " -type=" ++ n) := by
  induction names with
  | nil =>
    intro i k n h
    simp at h
  | cons m rest ih =>
    intro i k n h
    cases k with
    | zero =>
      simp only [List.get?] at h
      injection h with h
      subst h
      simp [usageSeederLines]
    | succ k =>
      simp only [List.get?] at h
      have hmuls : 3 * (k + 1) = 3 * k + 1 + 1 + 1 := by ring
      have hik : i + (k + 1) + 1 = i + 1 + k + 1 := by ring
      rw [hmuls, hik]
      simpa [usageSeederLines] using ih (i + 1) k n h

/-- C1: RegisterSeeder fails with the empty-name error on the empty name
and with the duplicate error on an already-registered name, leaving the
registry state unchanged in both failure cases; on a fresh nonempty name it
appends the new seeder and succeeds, and a second registration of that name
then fails as a duplicate while the map still binds the name to the first
action. -/
theorem c1_register_seeder (sm : SeederManager) (name : String)
    (f : SeedAction) :
    (name = "" → sm.RegisterSeeder name f = (sm, some GoErr.emptyName)) ∧
    (name ≠ "" → sm.IsSeederRegistered name = true →
      sm.RegisterSeeder name f = (sm, some (GoErr.duplicate name))) ∧
    (name ≠ "" → sm.IsSeederRegistered name = false →
      sm.RegisterSeeder name f =
        ({ seeders := sm.seeders ++ [⟨name, f⟩],
           seederMap := sm.seederMap ++ [(name, f)] }, none) ∧
      ∀ g : SeedAction,
        ((sm.RegisterSeeder name f).1).RegisterSeeder name g =
          ((sm.RegisterSeeder name f).1, some (GoErr.duplicate name)) ∧
        mapLookup name ((sm.RegisterSeeder name f).1).seederMap = some f) := by
  refine ⟨?_, ?_, ?_⟩
  · intro h0
    simp [SeederManager.RegisterSeeder, h0]
  · intro h0 h1
    simp only [SeederManager.IsSeederRegistered] at h1
    exact regSeeder_dup_eq f h0 h1
  · intro h0 h1
    simp only [SeederManager.IsSeederRegistered] at h1
    have hn : mapLookup name sm.seederMap = none := by
      rcases hm : mapLookup name sm.seederMap with _ | v
      · rfl
      · rw [hm] at h1
        simp at h1
    have hok := regSeeder_ok_eq f h0 hn
    refine ⟨hok, ?_⟩
    intro g
    have hmap : ((sm.RegisterSeeder name f).1).seederMap =
        sm.seederMap ++ [(name, f)] := by
      rw [hok]
    have hlk : mapLookup name ((sm.RegisterSeeder name f).1).seederMap =
        some f := by
      rw [hmap, mapLookup_append_none hn]
      simp [mapLookup]
    refine ⟨?_, hlk⟩
    have hsome :
        (mapLookup name ((sm.RegisterSeeder name f).1).seederMap).isSome =
          true := by
      rw [hlk]
      rfl
    exact regSeeder_dup_eq g h0 hsome

/-- C1 witness: registering the name users twice on a concrete registry
fails as a duplicate and changes nothing. -/
theorem c1_register_seeder_witness :
    smUsers.RegisterSeeder "users" actBoom =
      (smUsers, some (GoErr.duplicate "users")) :=
  (c1_register_seeder smUsers "users" actBoom).2.1 (by decide) (by rfl)

/-- C2: on every reachable registry, RunAllSeeders equals RunSeedersInOrder
applied to GetRegisteredSeeders: the same actions are invoked in the same
order and the same result is produced. -/
theorem c2_run_all_equiv (sm : SeederManager) (h : Reachable sm) :
    sm.RunAllSeeders = sm.RunSeedersInOrder sm.GetRegisteredSeeders := by
  rcases reachable_wf h with ⟨_, _, hitems⟩
  have hcons : ∀ it ∈ sm.seeders,
      mapLookup it.Name sm.seederMap = some it.Function :=
    fun it hit => (hitems it hit).2
  exact runAllAux_eq_inOrder sm.seeders hcons

/-- C2 witness: the equivalence holds on a concrete registry containing a
failing seeder. -/
theorem c2_run_all_equiv_witness :
    smBoom.RunAllSeeders = smBoom.RunSeedersInOrder smBoom.GetRegisteredSeeders :=
  c2_run_all_equiv smBoom
    (Reachable.step smUsers "x" actBoom
      (Reachable.step NewSeederManager "users" actOk Reachable.base))

/-- C3: every reachable registry satisfies the invariant: a name is a map
key iff it occurs in the ordered slice, the slice names are pairwise
distinct, and both registration operations only ever append to the slice,
so the slice order is exactly the order of successful registrations. -/
theorem c3_registry_invariant (sm : SeederManager) (h : Reachable sm) :
    (∀ n, sm.IsSeederRegistered n = true ↔ n ∈ sm.GetRegisteredSeeders) ∧
    sm.GetRegisteredSeeders.Nodup ∧
    (∀ (name : String) (f : SeedAction),
      ∃ t, ((sm.RegisterSeeder name f).1).seeders = sm.seeders ++ t) ∧
    (∀ items : List SeederItem,
      ∃ t, ((sm.RegisterSeeders items).1).seeders = sm.seeders ++ t) := by
  rcases reachable_wf h with ⟨hkeys, hnodup, _⟩
  exact ⟨fun n => hkeys n, hnodup,
    fun name f => regSeeder_seeders_extend sm name f,
    fun items => regSeeders_seeders_extend items sm⟩

/-- C3 witness: the invariant at a concrete two-seeder registry. -/
theorem c3_registry_invariant_witness :
    (smDemo.IsSeederRegistered "users" = true ↔
      "users" ∈ smDemo.GetRegisteredSeeders) ∧
    smDemo.GetRegisteredSeeders.Nodup := by
  have hr : Reachable smDemo :=
    Reachable.step smUsers "departments" actOk2
      (Reachable.step NewSeederManager "users" actOk Reachable.base)
  exact ⟨(c3_registry_invariant smDemo hr).1 "users",
    (c3_registry_invariant smDemo hr).2.1⟩

/-- C4: RunSeederByName on an absent name invokes nothing and returns the
not-found error; on a present name it invokes the bound action exactly once,
succeeds when the action succeeds, and on action failure returns the
execution-failed error that carries the name and the original cause, whose
formatted message contains both the name and the cause message. -/
theorem c4_run_seeder_by_name (sm : SeederManager) (name : String) :
    (mapLookup name sm.seederMap = none →
      sm.RunSeederByName name = ([], some (GoErr.notFound name))) ∧
    (∀ f : SeedAction, mapLookup name sm.seederMap = some f →
      (f.result = none → sm.RunSeederByName name = ([f], none)) ∧
      (∀ e : GoErr, f.result = some e →
        sm.RunSeederByName name = ([f], some (GoErr.execFailed name e)) ∧
        (∃ s t, (GoErr.execFailed name e).message = s ++ name ++ t) ∧
        (∃ s t, (GoErr.execFailed name e).message = s ++ e.message ++ t))) := by
  refine ⟨?_, ?_⟩
  · intro h
    simp [SeederManager.RunSeederByName, h]
  · intro f hf
    refine ⟨?_, ?_⟩
    · intro hres
      simp [SeederManager.RunSeederByName, hf, hres]
    · intro e hres
      refine ⟨by simp [SeederManager.RunSeederByName, hf, hres], ?_, ?_⟩
      · refine ⟨"seeder \x27", "\x27 failed: " ++ e.message, ?_⟩
        simp [GoErr.message, String.append_assoc]
      · refine ⟨"seeder \x27" ++ name ++ "\x27 failed: ", "", ?_⟩
        simp [GoErr.message, String.append_assoc]

/-- C4 witness: running the failing seeder x returns the wrapped error and
its message contains both the name and the cause text. -/
theorem c4_run_seeder_by_name_witness :
    smBoom.RunSeederByName "x" =
      ([actBoom], some (GoErr.execFailed "x" (GoErr.userError "boom"))) ∧
    (∃ s t, (GoErr.execFailed "x" (GoErr.userError "boom")).message =
      s ++ "x" ++ t) ∧
    (∃ s t, (GoErr.execFailed "x" (GoErr.userError "boom")).message =
      s ++ (GoErr.userError "boom").message ++ t) :=
  ((c4_run_seeder_by_name smBoom "x").2 actBoom (by rfl)).2
    (GoErr.userError "boom") (by rfl)

/-- C5: RunSeedersInOrder returns success on the empty sequence; when every
listed name succeeds it invokes their actions in the given order and
succeeds; and at the first failing name it returns that error unchanged and
never attempts the later names. -/
theorem c5_run_in_order (sm : SeederManager) (names : List String) :
    sm.RunSeedersInOrder [] = ([], none) ∧
    ((∀ n ∈ names, (sm.RunSeederByName n).2 = none) →
      sm.RunSeedersInOrder names =
        ((names.map fun n => (sm.RunSeederByName n).1).flatten, none)) ∧
    (∀ (pre : List String) (n : String) (rest : List String) (e : GoErr),
      names = pre ++ n :: rest →
      (∀ m ∈ pre, (sm.RunSeederByName m).2 = none) →
      (sm.RunSeederByName n).2 = some e →
      sm.RunSeedersInOrder names =
        ((pre.map fun m => (sm.RunSeederByName m).1).flatten
           ++ (sm.RunSeederByName n).1, some e)) := by
  refine ⟨rfl, fun h => runInOrder_all_ok names h, ?_⟩
  intro pre n rest e hn hpre hne
  subst hn
  exact runInOrder_stops pre n rest e hpre hne

/-- C5 witness: on a concrete registry the run stops at the failing name x
and the name listed after it is never attempted. -/
theorem c5_run_in_order_witness :
    smBoom.RunSeedersInOrder ["users", "x", "users"] =
      ((["users"].map fun m => (smBoom.RunSeederByName m).1).flatten
         ++ (smBoom.RunSeederByName "x").1,
       some (GoErr.execFailed "x" (GoErr.userError "boom"))) :=
  (c5_run_in_order smBoom ["users", "x", "users"]).2.2 ["users"] "x" ["users"]
    (GoErr.execFailed "x" (GoErr.userError "boom")) rfl (by decide) (by rfl)

/-- C6: RegisterSeeders on the empty sequence succeeds and changes nothing;
when it succeeds it is the left fold of RegisterSeeder over the items in
sequence order; at the first failing item it stops, wraps the cause with
the failing name, performs no rollback, and every item registered before
the failure is still registered. -/
theorem c6_register_seeders (sm : SeederManager) (items : List SeederItem) :
    sm.RegisterSeeders [] = (sm, none) ∧
    ((sm.RegisterSeeders items).2 = none →
      sm.RegisterSeeders items =
        (items.foldl (fun s it => (s.RegisterSeeder it.Name it.Function).1) sm,
         none)) ∧
    (∀ (pre : List SeederItem) (item : SeederItem) (rest : List SeederItem)
        (sm₁ : SeederManager) (e : GoErr),
      items = pre ++ item :: rest →
      sm.RegisterSeeders pre = (sm₁, none) →
      (sm₁.RegisterSeeder item.Name item.Function).2 = some e →
      sm.RegisterSeeders items =
        (sm₁, some (GoErr.registerFailed item.Name e)) ∧
      ∀ it ∈ pre, sm₁.IsSeederRegistered it.Name = true) := by
  refine ⟨rfl, fun h => regSeeders_ok_foldl items sm h, ?_⟩
  intro pre item rest sm₁ e hit hpre hfail
  subst hit
  have happ := @regSeeders_append_ok pre (item :: rest) sm sm₁ hpre
  have hstate := regSeeder_fail_state hfail
  rcases hreg : sm₁.RegisterSeeder item.Name item.Function with ⟨s, o⟩
  rw [hreg] at hfail hstate
  simp only at hfail hstate
  subst hfail
  subst hstate
  refine ⟨?_, regSeeders_registered hpre⟩
  rw [happ]
  simp [SeederManager.RegisterSeeders, hreg]

/-- C6 witness: a batch whose second item repeats the name users stops at
that item with a wrapped duplicate error and keeps the first item. -/
theorem c6_register_seeders_witness :
    NewSeederManager.RegisterSeeders [⟨"users", actOk⟩, ⟨"users", actBoom⟩] =
      (smUsers, some (GoErr.registerFailed "users" (GoErr.duplicate "users"))) :=
  ((c6_register_seeders NewSeederManager
      [⟨"users", actOk⟩, ⟨"users", actBoom⟩]).2.2
    [⟨"users", actOk⟩] ⟨"users", actBoom⟩ [] smUsers (GoErr.duplicate "users")
    rfl (by rfl) (by rfl)).1

/-- C7: on every reachable registry, IsSeederRegistered decides membership
in the name-to-action map, and the empty string is never registered. -/
theorem c7_is_seeder_registered (sm : SeederManager) (h : Reachable sm)
    (name : String) :
    (sm.IsSeederRegistered name = true ↔
      (mapLookup name sm.seederMap).isSome = true) ∧
    sm.IsSeederRegistered "" = false := by
  refine ⟨Iff.rfl, ?_⟩
  rcases reachable_wf h with ⟨hkeys, _, hitems⟩
  cases hb : sm.IsSeederRegistered "" with
  | false => rfl
  | true =>
    have hmem := (hkeys "").mp hb
    rcases List.mem_map.mp hmem with ⟨it, hit, hname⟩
    exact absurd hname (hitems it hit).1

/-- C7 witness: on a concrete registry, users is registered via the map and
the empty name is not registered. -/
theorem c7_is_seeder_registered_witness :
    (smUsers.IsSeederRegistered "users" = true ↔
      (mapLookup "users" smUsers.seederMap).isSome = true) ∧
    smUsers.IsSeederRegistered "" = false :=
  c7_is_seeder_registered smUsers
    (Reachable.step NewSeederManager "users" actOk Reachable.base) "users"

/-- C8: CLI.Run on the empty selector prints the usage text and succeeds
without invoking any action; on the reserved selector all it returns
exactly the trace and outcome of RunAllSeeders; on any other registered
selector it returns exactly the trace and outcome of RunSeederByName; on an
unregistered selector it prints the unknown-type diagnostic lines followed
by the full usage text, invokes nothing, and exits with status 1. -/
theorem c8_cli_run (cli : CLI) (sel : String) :
    (sel = "" → cli.Run sel = (cli.Usage, [], RunOutcome.ok)) ∧
    (sel = "all" → cli.Run sel =
      (["Starting seeder with type: " ++ sel],
       (cli.manager.RunAllSeeders).1,
       outcomeOfResult (cli.manager.RunAllSeeders).2)) ∧
    (sel ≠ "" → sel ≠ "all" → cli.manager.IsSeederRegistered sel = true →
      cli.Run sel =
        (["Starting seeder with type: " ++ sel],
         (cli.manager.RunSeederByName sel).1,
         outcomeOfResult (cli.manager.RunSeederByName sel).2)) ∧
    (sel ≠ "" → sel ≠ "all" → cli.manager.IsSeederRegistered sel = false →
      cli.Run sel =
        (["Starting seeder with type: " ++ sel,
          "Unknown seeder type: " ++ sel,
          "Available seeders: ["
            ++ String.intercalate " " cli.manager.GetRegisteredSeeders ++ "]"]
         ++ cli.Usage, [], RunOutcome.exitCode 1)) := by
  refine ⟨?_, ?_, ?_, ?_⟩
  · intro h0
    simp [CLI.Run, h0]
  · intro h0
    subst h0
    have hne : ("all" : String) ≠ "" := by decide
    simp [CLI.Run, hne]
  · intro h0 h1 h2
    simp [CLI.Run, h0, h1, h2]
  · intro h0 h1 h2
    simp [CLI.Run, h0, h1, h2]

/-- C8 witness: an unregistered selector on a concrete registry prints the
diagnostics plus usage, runs nothing, and exits with status 1. -/
theorem c8_cli_run_witness :
    (CLI.mk smUsers "app").Run "nope" =
      (["Starting seeder with type: nope",
        "Unknown seeder type: nope",
        "Available seeders: ["
          ++ String.intercalate " " smUsers.GetRegisteredSeeders ++ "]"]
       ++ (CLI.mk smUsers "app").Usage, [], RunOutcome.exitCode 1) :=
  (c8_cli_run (CLI.mk smUsers "app") "nope").2.2.2 (by decide) (by decide)
    (by rfl)

/-- C9: Usage is a total function of the registry; on an empty registry it
prints the header followed by the single no-seeders line and no numbered
listing; on a non-empty registry the output contains the numbered listing
block of exactly three lines per registered name, with the k-th name
numbered k+1 in registration order and paired with its invocation
command. -/
theorem c9_usage (cli : CLI) :
    (cli.manager.GetRegisteredSeeders = [] →
      cli.Usage = usageHeader cli.appName ++ ["No seeders registered yet."]) ∧
    (cli.manager.GetRegisteredSeeders ≠ [] →
      ∃ before after,
        cli.Usage = before
          ++ usageSeederLines cli.appName 0 cli.manager.GetRegisteredSeeders
          ++ after ∧
        (usageSeederLines cli.appName 0
            cli.manager.GetRegisteredSeeders).length
          = 3 * cli.manager.GetRegisteredSeeders.length ∧
        (∀ (k : Nat) (n : String),
          cli.manager.GetRegisteredSeeders.get? k = some n →
          (usageSeederLines cli.appName 0
              cli.manager.GetRegisteredSeeders).get? (3 * k) =
            some ("  " ++ toString (k + 1) ++ ". " ++ n) ∧
          (usageSeederLines cli.appName 0
              cli.manager.GetRegisteredSeeders).get? (3 * k + 1) =
            some ("     Command: " ++ cli.appName ++ " -type=" ++ n))) := by
  refine ⟨?_, ?_⟩
  · intro h
    simp [CLI.Usage, h]
  · intro h
    refine ⟨usageHeader cli.appName
        ++ ["Available seeders (in execution order):",
            "-" ++ strRepeat "-" 40],
      ["Quick commands:",
       "  " ++ cli.appName ++ " -type=all     # Run all seeders",
       "=" ++ strRepeat "=" 60], ?_, ?_, ?_⟩
    · simp [CLI.Usage, h, List.append_assoc]
    · exact usageSeederLines_length cli.appName _ 0
    · intro k n hk
      have hg := usageSeederLines_get cli.appName
        cli.manager.GetRegisteredSeeders 0 k n hk
      simpa using hg

/-- C9 witness: on the empty registry, Usage is the header plus the single
no-seeders line. -/
theorem c9_usage_witness :
    (CLI.mk NewSeederManager "app").Usage =
      usageHeader "app" ++ ["No seeders registered yet."] :=
  (c9_usage (CLI.mk NewSeederManager "app")).1 rfl

/-- C10: when a seeder is registered under the literal name all, CLI.Run on
the selector all still runs every registered seeder via RunAllSeeders and
never dispatches to that single seeder, while the programmatic
RunSeederByName on the name all still invokes exactly that one action. -/
theorem c10_all_shadowed (cli : CLI)
    (h : cli.manager.IsSeederRegistered "all" = true) :
    (cli.Run "all").2.1 = (cli.manager.RunAllSeeders).1 ∧
    (cli.Run "all").2.2 = outcomeOfResult (cli.manager.RunAllSeeders).2 ∧
    (cli.manager.RunSeederByName "all").1.length = 1 := by
  have hne : ("all" : String) ≠ "" := by decide
  refine ⟨?_, ?_, ?_⟩
  · simp [CLI.Run, hne]
  · simp [CLI.Run, hne]
  · simp only [SeederManager.IsSeederRegistered] at h
    rcases hm : mapLookup "all" cli.manager.seederMap with _ | f
    · rw [hm] at h
      simp at h
    · rcases hres : f.result with _ | e
      · simp [SeederManager.RunSeederByName, hm, hres]
      · simp [SeederManager.RunSeederByName, hm, hres]

/-- C10 witness: on a concrete registry containing a seeder named all, the
dispatcher runs everything and the single seeder stays reachable
programmatically. -/
theorem c10_all_shadowed_witness :
    ((CLI.mk smAll "app").Run "all").2.1 = (smAll.RunAllSeeders).1 ∧
    ((CLI.mk smAll "app").Run "all").2.2 =
      outcomeOfResult (smAll.RunAllSeeders).2 ∧
    (smAll.RunSeederByName "all").1.length = 1 :=
  c10_all_shadowed (CLI.mk smAll "app") (by rfl)

end GoSeeder
